import Mathlib

/-!
Verification of the lfring atomic coordination core (pointer tagging,
slot CAS helpers, the RDCSS double-compare single-swap protocol, and the
power-of-two capacity rounding) against its natural-language specification.

The Go source is shallowly embedded as follows.

* Machine words (`uintptr`, `uint64`) are `Nat` with explicit reduction
  modulo `2 ^ 64` exactly where the Go arithmetic can wrap.  The embedding
  fixes the 64-bit architecture case of `base.go`
  (`archADDRSIZE = 32 << 1 = 64`).

* The atomic memory cells touched by the RDCSS protocol hold abstract
  values `Val`: either the nil pointer, an untagged data pointer, or a
  tagged `rdcssDescriptor` pointer.  In the Go code a descriptor pointer
  is a fresh heap address carrying the low-order tag bit, so it is
  distinct from every data pointer; the constructor `Val.desc` reflects
  exactly that distinction (its argument identifies the owning invocation).

* The sequential meaning of `RDCSS`/`RDCSSComplete` is given by explicit
  state passing over the two memory words `*a1` (control) and `*a2`
  (data); the two addresses are distinct, as required by the protocol.
  The concurrent meaning is given by a step relation in which each atomic
  instruction of the Go code (one CAS or one plain load) is one step.

* Go `panic` is modelled as `Option.none`.
-/

/-- Abstract value stored in an atomic memory word: the nil pointer, an
untagged data pointer, or a tagged `rdcssDescriptor` pointer (made distinct
from all data pointers by its low-order tag bit; the index identifies the
RDCSS invocation that allocated it). -/
inductive Val where
  | null : Val
  | ptr : Nat → Val
  | desc : Nat → Val
deriving DecidableEq, Repr

/-- The two memory words an RDCSS invocation touches: `v1` is the contents
of the control address `a1`, `v2` the contents of the data address `a2`. -/
structure Mem where
  v1 : Val
  v2 : Val
deriving DecidableEq, Repr

/-- Embedding of `CASSliceSlot(addr, data, target, index, ptrsize)`.
The slice is a `List Val`; the pointer arithmetic
`*(*uintptr)(addr) + ptrsize*index` that locates the slot becomes list
indexing (out-of-range access is raw undefined behaviour in the source and
is mapped to `none`).  The body is a single
`atomic.CompareAndSwapPointer(slot, target, data)`: the slot is compared
against the `target` argument and, on a match, overwritten with the `data`
argument, returning `true` exactly on success. -/
def CASSliceSlot (arr : List Val) (data target : Val) (index : Nat) :
    Option (Bool × List Val) :=
  match arr[index]? with
  | none => none
  | some cur =>
    if cur = target then some (true, arr.set index data)
    else some (false, arr)

/-- Embedding of `SetSliceSlot(addr, index, ptrsize, d)`:
`CASSliceSlot(addr, d, nil, index, ptrsize)`. -/
def SetSliceSlot (arr : List Val) (index : Nat) (d : Val) :
    Option (Bool × List Val) :=
  CASSliceSlot arr d Val.null index

/-- `archADDRSIZE = 32 << uintptr(^uintptr(0)>>63)`, resolved for the
64-bit architecture. -/
def archADDRSIZE : Nat := 64

/-- `archWORDSIZE = archADDRSIZE >> 3`. -/
def archWORDSIZE : Nat := archADDRSIZE >>> 3

/-- `archMAXTAG = archWORDSIZE - 1`. -/
def archMAXTAG : Nat := archWORDSIZE - 1

/-- `archPTRMASK = ^uintptr((archADDRSIZE >> 5) + 1)`: the 64-bit bitwise
complement is exclusive-or with the all-ones word. -/
def archPTRMASK : Nat := (2 ^ 64 - 1) ^^^ ((archADDRSIZE >>> 5) + 1)

/-- `GetTag(ptr) = uint(uintptr(ptr) & uintptr(archMAXTAG))`. -/
def GetTag (ptr : Nat) : Nat := ptr &&& archMAXTAG

/-- `TaggedPointer(ptr, tag)`: panics (modelled as `none`) when
`tag > archMAXTAG`, otherwise returns `ptr | tag`. -/
def TaggedPointer (ptr tag : Nat) : Option Nat :=
  if tag > archMAXTAG then none else some (ptr ||| tag)

/-- `Untag(ptr) = uintptr(ptr) & archPTRMASK`. -/
def Untag (ptr : Nat) : Nat := ptr &&& archPTRMASK

/-- `HasTag(ptr) = GetTag(ptr) & archMAXTAG > 0`. -/
def HasTag (ptr : Nat) : Bool := GetTag ptr &&& archMAXTAG > 0

/-- Sequential embedding of `RDCSSComplete(d)` for a descriptor holding
fields `o1`, `o2`, `n`, whose tagged pointer is the value `d`.  The body
is: a plain load of `*a1` compared with `o1`, short-circuit conjoined with
`CAS(a2, d, n)`; on success return `true`.  Otherwise the best-effort
restoration `CAS(a2, d, o2)` runs (its failure is only logged) and the
result is `false`. -/
def RDCSSComplete (d o1 o2 n : Val) (s : Mem) : Bool × Mem :=
  if s.v1 = o1 ∧ s.v2 = d then (true, { s with v2 := n })
  else if s.v2 = d then (false, { s with v2 := o2 })
  else (false, s)

/-- Sequential embedding of `RDCSS(a1, o1, a2, o2, n)` run without
interference: allocate a fresh descriptor, tag it with `0x1`
(`Val.desc 0`), install it with `CAS(a2, o2, d)`; on success run
`RDCSSComplete`, otherwise return `false` leaving the state untouched. -/
def RDCSS (o1 o2 n : Val) (s : Mem) : Bool × Mem :=
  let d := Val.desc 0
  if s.v2 = o2 then RDCSSComplete d o1 o2 n { s with v2 := d }
  else (false, s)

/-- `IsRDCSSDescriptor(addr) = HasTag(addr)` on the abstract values: a word
holds a descriptor pointer exactly when it was built by `Val.desc`. -/
def IsRDCSSDescriptor : Val → Bool
  | Val.desc _ => true
  | _ => false

/-- Program counter of one thread running `RDCSS`, one position per atomic
instruction of the Go code: the install CAS, the plain load of `*a1`, the
finalising CAS, the restoration CAS, and the three terminal outcomes. -/
inductive PC where
  | install
  | readCtl
  | commit
  | rollback
  | aborted
  | committed
  | rolledBack
deriving DecidableEq, Repr

/-- A terminal program counter: the invocation has returned. -/
def PC.terminal (p : PC) : Prop :=
  p = PC.aborted ∨ p = PC.committed ∨ p = PC.rolledBack

/-- Global state of two threads racing `RDCSS` on the same control address
(contents `v1`) and data address (contents `v2`). -/
structure Sys where
  v1 : Val
  v2 : Val
  p1 : PC
  p2 : PC
deriving DecidableEq, Repr

/-- One atomic instruction of `RDCSS`/`RDCSSComplete` executed by a thread
whose descriptor has tagged value `d` and new value `n`:
`threadStep o1 o2 n d pc v1 v2 pc' v2'` relates the program counter and the
data word before and after (the control word `v1` is only ever read). -/
inductive threadStep (o1 o2 n d : Val) :
    PC → Val → Val → PC → Val → Prop where
  | installFail {v1 v2 : Val} : v2 ≠ o2 →
      threadStep o1 o2 n d PC.install v1 v2 PC.aborted v2
  | installOk {v1 v2 : Val} : v2 = o2 →
      threadStep o1 o2 n d PC.install v1 v2 PC.readCtl d
  | readOk {v1 v2 : Val} : v1 = o1 →
      threadStep o1 o2 n d PC.readCtl v1 v2 PC.commit v2
  | readFail {v1 v2 : Val} : v1 ≠ o1 →
      threadStep o1 o2 n d PC.readCtl v1 v2 PC.rollback v2
  | commitOk {v1 v2 : Val} : v2 = d →
      threadStep o1 o2 n d PC.commit v1 v2 PC.committed n
  | commitFail {v1 v2 : Val} : v2 ≠ d →
      threadStep o1 o2 n d PC.commit v1 v2 PC.rollback v2
  | rollbackOk {v1 v2 : Val} : v2 = d →
      threadStep o1 o2 n d PC.rollback v1 v2 PC.rolledBack o2
  | rollbackFail {v1 v2 : Val} : v2 ≠ d →
      threadStep o1 o2 n d PC.rollback v1 v2 PC.rolledBack v2

/-- Interleaving of two `RDCSS` invocations with the same `a1`, `o1`,
`a2`, `o2` and new values `n1`, `n2`; thread 1 owns the fresh descriptor
`Val.desc 1`, thread 2 owns `Val.desc 2`. -/
inductive sysStep (o1 o2 n1 n2 : Val) : Sys → Sys → Prop where
  | left {v1 v2 : Val} {p1 p2 p1' : PC} {v2' : Val} :
      threadStep o1 o2 n1 (Val.desc 1) p1 v1 v2 p1' v2' →
      sysStep o1 o2 n1 n2 ⟨v1, v2, p1, p2⟩ ⟨v1, v2', p1', p2⟩
  | right {v1 v2 : Val} {p1 p2 p2' : PC} {v2' : Val} :
      threadStep o1 o2 n2 (Val.desc 2) p2 v1 v2 p2' v2' →
      sysStep o1 o2 n1 n2 ⟨v1, v2, p1, p2⟩ ⟨v1, v2', p1, p2'⟩

/-- Inductive invariant of the two-thread race started from a consistent
state: the control word never changes, and at every moment the data word
records which phase the race is in. -/
def RaceInv (o1 o2 n1 n2 : Val) (s : Sys) : Prop :=
  s.v1 = o1 ∧
  ((s.p1 = PC.install ∧ s.p2 = PC.install ∧ s.v2 = o2) ∨
   ((s.p1 = PC.readCtl ∨ s.p1 = PC.commit) ∧ s.v2 = Val.desc 1 ∧
     (s.p2 = PC.install ∨ s.p2 = PC.aborted)) ∨
   ((s.p2 = PC.readCtl ∨ s.p2 = PC.commit) ∧ s.v2 = Val.desc 2 ∧
     (s.p1 = PC.install ∨ s.p1 = PC.aborted)) ∨
   (s.p1 = PC.committed ∧ s.v2 = n1 ∧
     (s.p2 = PC.install ∨ s.p2 = PC.aborted)) ∨
   (s.p2 = PC.committed ∧ s.v2 = n2 ∧
     (s.p1 = PC.install ∨ s.p1 = PC.aborted)))

/-- One line `v |= v >> m` of `roundP2`. -/
def orShift (m x : Nat) : Nat := x ||| x >>> m

/-- Embedding of `roundP2(v uint64) uint64`: the decrement and increment
wrap modulo `2 ^ 64`; the six `v |= v >> m` lines cannot overflow. -/
def roundP2 (v : Nat) : Nat :=
  let x := (v + (2 ^ 64 - 1)) % 2 ^ 64
  (orShift 32 (orShift 16 (orShift 8 (orShift 4 (orShift 2 (orShift 1 x))))) + 1) % 2 ^ 64

/-- The architecture constants of `base.go` evaluate, on the 64-bit
architecture, to word size 8, maximum tag 7, and a mask that clears only
the two lowest bits. -/
lemma arch_consts : archWORDSIZE = 8 ∧ archMAXTAG = 7 ∧
    archPTRMASK = 2 ^ 64 - 4 := by decide

/-- Bit `i` of `archPTRMASK` is set exactly for `2 ≤ i < 64`. -/
lemma testBit_archPTRMASK (i : Nat) :
    archPTRMASK.testBit i = (decide (2 ≤ i) && decide (i < 64)) := by
  have h : archPTRMASK = 2 ^ 2 * (2 ^ 62 - 1) := by decide
  rw [h, Nat.testBit_mul_pow_two, Nat.testBit_two_pow_sub_one]
  by_cases h1 : 2 ≤ i <;> by_cases h2 : i < 64 <;>
    simp [h1, h2] <;> omega

/-- Claim C4, counterexample: on the 64-bit architecture the tag `4` is
within `[0, archMAXTAG]` and the address `8` is naturally aligned, yet
`Untag (TaggedPointer 8 4) = 12 ≠ 8`, because `archPTRMASK` clears only
two low-order bits while tags occupy three. -/
theorem tag_roundtrip_cex :
    4 ≤ archMAXTAG ∧ 8 % (archMAXTAG + 1) = 0 ∧
    TaggedPointer 8 4 = some 12 ∧ Untag 12 = 12 ∧ (12 : Nat) ≠ 8 := by
  decide

/-- Claim C4 (amended): for every naturally aligned 64-bit address `a`
(low three bits zero) and tag `t`, `GetTag (TaggedPointer a t) = t` holds
for all valid tags `t ≤ archMAXTAG`, but `Untag (TaggedPointer a t) = a`
only holds for tags `t ≤ 3`, the bits actually cleared by
`archPTRMASK`. -/
theorem tag_roundtrip_amended (a t : Nat) (ha : a < 2 ^ 64)
    (hal : a % 8 = 0) :
    (t ≤ archMAXTAG → (TaggedPointer a t).map GetTag = some t) ∧
    (t ≤ 3 → (TaggedPointer a t).map Untag = some a) := by
  have hm : archMAXTAG = 7 := rfl
  constructor
  · intro ht
    rw [hm] at ht
    rw [TaggedPointer, if_neg (by rw [hm]; omega)]
    simp only [Option.map_some']
    congr 1
    rw [GetTag, hm]
    have h7 : (7 : Nat) = 2 ^ 3 - 1 := rfl
    rw [h7, Nat.and_distrib_right, Nat.and_pow_two_sub_one_eq_mod,
      Nat.and_pow_two_sub_one_eq_mod]
    have h1 : a % 2 ^ 3 = 0 := hal
    rw [h1, Nat.zero_or]
    exact Nat.mod_eq_of_lt (by omega)
  · intro ht
    rw [TaggedPointer, if_neg (by rw [hm]; omega)]
    simp only [Option.map_some']
    congr 1
    apply Nat.eq_of_testBit_eq
    intro i
    rw [Untag, Nat.testBit_and, Nat.testBit_or, testBit_archPTRMASK]
    by_cases h2 : i < 2
    · have hai : a.testBit i = false := by
        interval_cases i
        · rw [Nat.testBit_zero]
          simp only [decide_eq_false_iff_not]
          omega
        · rw [Nat.testBit_add_one, Nat.testBit_zero]
          simp only [decide_eq_false_iff_not]
          omega
      simp [hai, show ¬ (2 ≤ i) by omega]
    · by_cases h64 : i < 64
      · have hti : t.testBit i = false :=
          Nat.testBit_lt_two_pow
            (lt_of_lt_of_le (show t < 2 ^ 2 by omega)
              (Nat.pow_le_pow_right (by norm_num) (by omega)))
        simp [hti, show 2 ≤ i by omega, h64]
      · have hai : a.testBit i = false :=
          Nat.testBit_lt_two_pow
            (lt_of_lt_of_le ha
              (Nat.pow_le_pow_right (by norm_num) (by omega)))
        simp [hai, h64]

/-- Witness for the amended claim C4 at `a = 16`, `t = 3`. -/
theorem tag_roundtrip_amended_witness :
    16 < 2 ^ 64 ∧ 16 % 8 = 0 ∧ (3 ≤ archMAXTAG ∧ 3 ≤ 3) ∧
    (TaggedPointer 16 3).map GetTag = some 3 ∧
    (TaggedPointer 16 3).map Untag = some 16 :=
  ⟨by decide, by decide, ⟨by decide, by decide⟩,
    (tag_roundtrip_amended 16 3 (by decide) (by decide)).1 (by decide),
    (tag_roundtrip_amended 16 3 (by decide) (by decide)).2 (by decide)⟩

/-- Claim C5, counterexample: `Untag` does not clear bit 2, so the
untagged pointer `Untag 4 = 4` still satisfies `HasTag`. -/
theorem hasTag_untag_cex : HasTag (Untag 4) = true := by decide

/-- Claim C5 (amended): `Untag` clears only the two lowest bits, so
`HasTag (Untag p)` is false exactly for pointers whose bit 2 is unset;
in general it equals the test of bit 2 of `p`. -/
theorem hasTag_untag_amended (p : Nat) :
    HasTag (Untag p) = decide (p &&& 4 > 0) := by
  unfold HasTag GetTag Untag
  rw [Nat.and_assoc, Nat.and_assoc]
  have h : archPTRMASK &&& (archMAXTAG &&& archMAXTAG) = 4 := by decide
  rw [h]

/-- Claim C6: `TaggedPointer` with a tag exceeding `archMAXTAG` always
panics (modelled as `none`): it never returns a tagged value, so no
clamping or truncation can occur. -/
theorem taggedPointer_invalid (a t : Nat) (h : t > archMAXTAG) :
    TaggedPointer a t = none := by
  rw [TaggedPointer, if_pos h]

/-- Witness for claim C6 at `a = 0`, `t = 8`. -/
theorem taggedPointer_invalid_witness :
    8 > archMAXTAG ∧ TaggedPointer 0 8 = none :=
  ⟨by decide, taggedPointer_invalid 0 8 (by decide)⟩

/-- Claim C7, the code contradicts its own documentation: with slot 0
holding `ptr 5`, calling `CASSliceSlot` with documented expected-old value
`data = ptr 6` and documented new value `target = ptr 5` must fail and
leave the slot unchanged (the slot does not equal the expected old value),
but the call passes its arguments to `atomic.CompareAndSwapPointer`
swapped, so it succeeds and writes `ptr 6`. -/
theorem casSliceSlot_bug :
    Val.ptr 5 ≠ Val.ptr 6 ∧
    CASSliceSlot [Val.ptr 5] (Val.ptr 6) (Val.ptr 5) 0 =
      some (true, [Val.ptr 6]) := by decide

/-- Claim C8: `SetSliceSlot` writes `d` and returns `true` when the slot
holds the nil marker, and on an occupied slot returns `false` leaving the
slice unchanged. -/
theorem setSliceSlot_spec (arr : List Val) (i : Nat) (d cur : Val)
    (hc : arr[i]? = some cur) :
    (cur = Val.null → SetSliceSlot arr i d = some (true, arr.set i d)) ∧
    (cur ≠ Val.null → SetSliceSlot arr i d = some (false, arr)) := by
  unfold SetSliceSlot CASSliceSlot
  rw [hc]
  constructor
  · intro h
    simp [h]
  · intro h
    simp [h]

/-- Witness for claim C8 on the slice `[nil, ptr 7]`: the empty slot 0 is
claimed, the occupied slot 1 is refused unchanged. -/
theorem setSliceSlot_spec_witness :
    ([Val.null, Val.ptr 7] : List Val)[0]? = some Val.null ∧
    SetSliceSlot [Val.null, Val.ptr 7] 0 (Val.ptr 9) =
      some (true, [Val.ptr 9, Val.ptr 7]) ∧
    ([Val.null, Val.ptr 7] : List Val)[1]? = some (Val.ptr 7) ∧
    SetSliceSlot [Val.null, Val.ptr 7] 1 (Val.ptr 9) =
      some (false, [Val.null, Val.ptr 7]) :=
  ⟨by decide,
    (setSliceSlot_spec [Val.null, Val.ptr 7] 0 (Val.ptr 9) Val.null
      (by decide)).1 rfl,
    by decide,
    (setSliceSlot_spec [Val.null, Val.ptr 7] 1 (Val.ptr 9) (Val.ptr 7)
      (by decide)).2 (by decide)⟩

/-- Claim C1: run without interference, `RDCSS` returns `true` with the
data word set to `n` exactly when initially the data word equals `o2` and
the control word equals `o1`; and when the initial compare of the data
word against `o2` fails the call returns `false` with the whole state
untouched. -/
theorem rdcss_seq_spec (o1 o2 n : Val) (s : Mem) :
    (((RDCSS o1 o2 n s).1 = true ∧ (RDCSS o1 o2 n s).2.v2 = n) ↔
      (s.v2 = o2 ∧ s.v1 = o1)) ∧
    (s.v2 ≠ o2 →
      (RDCSS o1 o2 n s).1 = false ∧ (RDCSS o1 o2 n s).2 = s) := by
  unfold RDCSS RDCSSComplete
  by_cases h2 : s.v2 = o2 <;> by_cases h1 : s.v1 = o1 <;>
    simp [h1, h2]

/-- Witness for claim C1: a failing initial compare leaves the state
untouched and reports failure. -/
theorem rdcss_seq_spec_witness :
    (Mem.mk (Val.ptr 0) (Val.ptr 1)).v2 ≠ Val.ptr 2 ∧
    (RDCSS (Val.ptr 0) (Val.ptr 2) (Val.ptr 3)
      (Mem.mk (Val.ptr 0) (Val.ptr 1))).1 = false ∧
    (RDCSS (Val.ptr 0) (Val.ptr 2) (Val.ptr 3)
      (Mem.mk (Val.ptr 0) (Val.ptr 1))).2 =
      Mem.mk (Val.ptr 0) (Val.ptr 1) :=
  ⟨by decide,
    (rdcss_seq_spec (Val.ptr 0) (Val.ptr 2) (Val.ptr 3)
      (Mem.mk (Val.ptr 0) (Val.ptr 1))).2 (by decide)⟩

/-- Claim C2: when the descriptor is installed (the data word matched
`o2`) but the control condition fails, `RDCSS` returns `false` and the
data word is restored to exactly its pre-attempt value `o2`, the control
word untouched. -/
theorem rdcss_seq_rolledback (o1 o2 n : Val) (s : Mem)
    (h2 : s.v2 = o2) (h1 : s.v1 ≠ o1) :
    (RDCSS o1 o2 n s).1 = false ∧ (RDCSS o1 o2 n s).2.v2 = o2 ∧
    (RDCSS o1 o2 n s).2.v1 = s.v1 := by
  unfold RDCSS RDCSSComplete
  simp [h1, h2]

/-- Witness for claim C2 at a state whose control word moved away from
`o1`. -/
theorem rdcss_seq_rolledback_witness :
    (Mem.mk (Val.ptr 5) (Val.ptr 1)).v2 = Val.ptr 1 ∧
    (Mem.mk (Val.ptr 5) (Val.ptr 1)).v1 ≠ Val.ptr 0 ∧
    (RDCSS (Val.ptr 0) (Val.ptr 1) (Val.ptr 3)
      (Mem.mk (Val.ptr 5) (Val.ptr 1))).1 = false ∧
    (RDCSS (Val.ptr 0) (Val.ptr 1) (Val.ptr 3)
      (Mem.mk (Val.ptr 5) (Val.ptr 1))).2.v2 = Val.ptr 1 ∧
    (RDCSS (Val.ptr 0) (Val.ptr 1) (Val.ptr 3)
      (Mem.mk (Val.ptr 5) (Val.ptr 1))).2.v1 =
      (Mem.mk (Val.ptr 5) (Val.ptr 1)).v1 :=
  ⟨by decide, by decide,
    (rdcss_seq_rolledback (Val.ptr 0) (Val.ptr 1) (Val.ptr 3)
      (Mem.mk (Val.ptr 5) (Val.ptr 1)) (by decide) (by decide))⟩

/-- One `v |= v >> m` step doubles the window over which a set bit of the
original value `x` is smeared downwards. -/
lemma orShift_char {x r : Nat} (m : Nat)
    (h : ∀ i, r.testBit i = true ↔ ∃ j, j < m ∧ x.testBit (i + j) = true)
    (i : Nat) :
    (orShift m r).testBit i = true ↔
      ∃ j, j < m + m ∧ x.testBit (i + j) = true := by
  rw [orShift, Nat.testBit_or, Bool.or_eq_true, Nat.testBit_shiftRight,
    h, h]
  constructor
  · rintro (⟨j, hj, hb⟩ | ⟨j, hj, hb⟩)
    · exact ⟨j, by omega, hb⟩
    · refine ⟨m + j, by omega, ?_⟩
      rw [show i + (m + j) = m + i + j by omega]
      exact hb
  · rintro ⟨j, hj, hb⟩
    by_cases hc : j < m
    · exact Or.inl ⟨j, hc, hb⟩
    · refine Or.inr ⟨j - m, by omega, ?_⟩
      rw [show m + i + (j - m) = i + j by omega]
      exact hb

/-- After the six shift-or lines of `roundP2`, bit `i` of the result is
set exactly when some bit of the input is set within 64 positions above
`i`. -/
lemma smear_char (x i : Nat) :
    (orShift 32 (orShift 16 (orShift 8 (orShift 4 (orShift 2
      (orShift 1 x)))))).testBit i = true ↔
      ∃ j, j < 64 ∧ x.testBit (i + j) = true := by
  have h0 : ∀ i, x.testBit i = true ↔
      ∃ j, j < 1 ∧ x.testBit (i + j) = true := by
    intro i
    constructor
    · intro hb
      exact ⟨0, by omega, by simpa using hb⟩
    · rintro ⟨j, hj, hb⟩
      have hj0 : j = 0 := by omega
      subst hj0
      simpa using hb
  have h1 : ∀ i, (orShift 1 x).testBit i = true ↔
      ∃ j, j < 2 ∧ x.testBit (i + j) = true := by
    simpa using fun i => orShift_char 1 h0 i
  have h2 : ∀ i, (orShift 2 (orShift 1 x)).testBit i = true ↔
      ∃ j, j < 4 ∧ x.testBit (i + j) = true := by
    simpa using fun i => orShift_char 2 h1 i
  have h4 : ∀ i, (orShift 4 (orShift 2 (orShift 1 x))).testBit i = true ↔
      ∃ j, j < 8 ∧ x.testBit (i + j) = true := by
    simpa using fun i => orShift_char 4 h2 i
  have h8 : ∀ i, (orShift 8 (orShift 4 (orShift 2
      (orShift 1 x)))).testBit i = true ↔
      ∃ j, j < 16 ∧ x.testBit (i + j) = true := by
    simpa using fun i => orShift_char 8 h4 i
  have h16 : ∀ i, (orShift 16 (orShift 8 (orShift 4 (orShift 2
      (orShift 1 x))))).testBit i = true ↔
      ∃ j, j < 32 ∧ x.testBit (i + j) = true := by
    simpa using fun i => orShift_char 16 h8 i
  simpa using orShift_char 32 h16 i

/-- For `x < 2 ^ 64` the six shift-or lines of `roundP2` produce the
all-ones pattern below the highest set bit: `2 ^ Nat.size x - 1`. -/
lemma smear_eq (x : Nat) (hx : x < 2 ^ 64) :
    orShift 32 (orShift 16 (orShift 8 (orShift 4 (orShift 2
      (orShift 1 x))))) = 2 ^ Nat.size x - 1 := by
  apply Nat.eq_of_testBit_eq
  intro i
  rw [Nat.testBit_two_pow_sub_one]
  by_cases hi : i < Nat.size x
  · have h2i : 2 ^ i ≤ x := Nat.lt_size.mp hi
    obtain ⟨b, hbi, hb⟩ := Nat.ge_two_pow_implies_high_bit_true h2i
    have hbs : b < Nat.size x := Nat.lt_size.mpr (Nat.testBit_implies_ge hb)
    have hs64 : Nat.size x ≤ 64 := Nat.size_le.mpr hx
    have hset : (orShift 32 (orShift 16 (orShift 8 (orShift 4 (orShift 2
        (orShift 1 x)))))).testBit i = true := by
      refine (smear_char x i).mpr ⟨b - i, by omega, ?_⟩
      rw [show i + (b - i) = b by omega]
      exact hb
    rw [hset]
    simp [hi]
  · have hunset : ¬ ((orShift 32 (orShift 16 (orShift 8 (orShift 4
        (orShift 2 (orShift 1 x)))))).testBit i = true) := by
      rw [smear_char]
      rintro ⟨j, hj, hb⟩
      have hlt : x < 2 ^ (i + j) :=
        lt_of_lt_of_le (Nat.lt_size_self x)
          (Nat.pow_le_pow_right (by norm_num) (by omega))
      rw [Nat.testBit_lt_two_pow hlt] at hb
      exact Bool.false_ne_true hb
    simp only [Bool.not_eq_true] at hunset
    rw [hunset]
    simp [hi]

/-- In range, `roundP2` computes `2 ^ Nat.size (v - 1)`. -/
lemma roundP2_eq_two_pow (v : Nat) (hlo : 1 ≤ v) (hhi : v ≤ 2 ^ 63) :
    roundP2 v = 2 ^ Nat.size (v - 1) := by
  have hp : (2 : Nat) ^ 64 = 18446744073709551616 := by norm_num
  have hp63 : (2 : Nat) ^ 63 = 9223372036854775808 := by norm_num
  rw [hp63] at hhi
  have hd : (v + (2 ^ 64 - 1)) % 2 ^ 64 = v - 1 := by
    rw [hp]
    omega
  have hx : v - 1 < 2 ^ 64 := by
    rw [hp]
    omega
  have hs : Nat.size (v - 1) ≤ 63 := by
    apply Nat.size_le.mpr
    rw [hp63]
    omega
  calc roundP2 v
      = (orShift 32 (orShift 16 (orShift 8 (orShift 4 (orShift 2
          (orShift 1 ((v + (2 ^ 64 - 1)) % 2 ^ 64)))))) + 1) % 2 ^ 64 :=
        rfl
    _ = (orShift 32 (orShift 16 (orShift 8 (orShift 4 (orShift 2
          (orShift 1 (v - 1)))))) + 1) % 2 ^ 64 := by rw [hd]
    _ = (2 ^ Nat.size (v - 1) - 1 + 1) % 2 ^ 64 := by
        rw [smear_eq (v - 1) hx]
    _ = 2 ^ Nat.size (v - 1) % 2 ^ 64 := by
        rw [Nat.sub_add_cancel (Nat.two_pow_pos _)]
    _ = 2 ^ Nat.size (v - 1) :=
        Nat.mod_eq_of_lt (lt_of_le_of_lt
          (Nat.pow_le_pow_right (by norm_num) hs) (by norm_num))

/-- Claim C9, counterexample: `2 ^ 63 + 1` is a valid `uint64` input, and
the claim requires the result to be either the input (power of two) or a
power of two greater than the input, hence positive; the code wraps and
returns `0`. -/
theorem roundP2_cex :
    roundP2 (2 ^ 63 + 1) = 0 ∧ 0 < 2 ^ 63 + 1 := by decide

/-- Claim C9 (amended): for every `v` with `1 ≤ v ≤ 2 ^ 63`, `roundP2`
returns `v` unchanged when `v` is a power of two, and otherwise returns
the least power of two greater than `v`; outside that range the `uint64`
computation wraps to `0`. -/
theorem roundP2_correct (v : Nat) (hlo : 1 ≤ v) (hhi : v ≤ 2 ^ 63) :
    ((∃ k, v = 2 ^ k) → roundP2 v = v) ∧
    (¬ (∃ k, v = 2 ^ k) →
      (∃ k, roundP2 v = 2 ^ k) ∧ v < roundP2 v ∧
      ∀ k, v < 2 ^ k → roundP2 v ≤ 2 ^ k) := by
  have hr := roundP2_eq_two_pow v hlo hhi
  constructor
  · rintro ⟨k, rfl⟩
    rw [hr]
    congr 1
    rcases Nat.eq_zero_or_pos k with hk | hk
    · subst hk
      simp [Nat.size_zero]
    · apply le_antisymm
      · exact Nat.size_le.mpr (by have := Nat.two_pow_pos k; omega)
      · have hlt : 2 ^ (k - 1) < 2 ^ k :=
          Nat.pow_lt_pow_right (by norm_num) (by omega)
        have hge := Nat.lt_size.mpr (show 2 ^ (k - 1) ≤ 2 ^ k - 1 by omega)
        omega
  · intro hnp
    rw [hr]
    refine ⟨⟨_, rfl⟩, ?_, ?_⟩
    · have hle : v - 1 < 2 ^ Nat.size (v - 1) := Nat.lt_size_self _
      have hvle : v ≤ 2 ^ Nat.size (v - 1) := by omega
      rcases Nat.lt_or_eq_of_le hvle with h | h
      · exact h
      · exact absurd ⟨_, h⟩ hnp
    · intro k hk
      exact Nat.pow_le_pow_right (by norm_num) (Nat.size_le.mpr (by omega))

/-- Witness for the amended claim C9 at the non-power input `5`: the
result is a power of two, greater than `5`, and minimal among such. -/
theorem roundP2_correct_witness :
    ((1 : Nat) ≤ 5 ∧ (5 : Nat) ≤ 2 ^ 63) ∧ (¬ ∃ k, (5 : Nat) = 2 ^ k) ∧
    ((∃ k, roundP2 5 = 2 ^ k) ∧ 5 < roundP2 5 ∧
      ∀ k, 5 < 2 ^ k → roundP2 5 ≤ 2 ^ k) := by
  have h5 : ¬ ∃ k, (5 : Nat) = 2 ^ k := by
    rintro ⟨k, hk⟩
    rcases Nat.lt_or_ge k 3 with h | h
    · interval_cases k <;> norm_num at hk
    · have hge : 2 ^ 3 ≤ 2 ^ k := Nat.pow_le_pow_right (by norm_num) h
      norm_num at hge
      omega
  exact ⟨⟨by norm_num, by norm_num⟩, h5,
    (roundP2_correct 5 (by norm_num) (by norm_num)).2 h5⟩

/-- Claim C10: at the edges of the `uint64` domain `roundP2` wraps and
returns `0` — for the input `0` and for every input strictly above
`2 ^ 63` — and `0` is not a power of two. -/
theorem roundP2_wrap (v : Nat)
    (h : v = 0 ∨ (2 ^ 63 < v ∧ v < 2 ^ 64)) :
    roundP2 v = 0 ∧ ∀ k, roundP2 v ≠ 2 ^ k := by
  have hz : roundP2 v = 0 := by
    rcases h with rfl | ⟨hlo, hhi⟩
    · decide
    · have hp : (2 : Nat) ^ 64 = 18446744073709551616 := by norm_num
      have hp63 : (2 : Nat) ^ 63 = 9223372036854775808 := by norm_num
      rw [hp63] at hlo
      rw [hp] at hhi
      have hd : (v + (2 ^ 64 - 1)) % 2 ^ 64 = v - 1 := by
        rw [hp]
        omega
      have hx : v - 1 < 2 ^ 64 := by
        rw [hp]
        omega
      have hsz : Nat.size (v - 1) = 64 := by
        apply le_antisymm (Nat.size_le.mpr hx)
        have hge := Nat.lt_size.mpr (show 2 ^ 63 ≤ v - 1 by rw [hp63]; omega)
        omega
      calc roundP2 v
          = (orShift 32 (orShift 16 (orShift 8 (orShift 4 (orShift 2
              (orShift 1 ((v + (2 ^ 64 - 1)) % 2 ^ 64)))))) + 1) %
              2 ^ 64 := rfl
        _ = (orShift 32 (orShift 16 (orShift 8 (orShift 4 (orShift 2
              (orShift 1 (v - 1)))))) + 1) % 2 ^ 64 := by rw [hd]
        _ = (2 ^ Nat.size (v - 1) - 1 + 1) % 2 ^ 64 := by
            rw [smear_eq (v - 1) hx]
        _ = 0 := by
            rw [hsz, Nat.sub_add_cancel (Nat.two_pow_pos _), Nat.mod_self]
  refine ⟨hz, fun k hk => ?_⟩
  rw [hz] at hk
  have := Nat.two_pow_pos k
  omega

/-- Witness for claim C10 at the input `2 ^ 63 + 1`. -/
theorem roundP2_wrap_witness :
    ((2 : Nat) ^ 63 < 2 ^ 63 + 1 ∧ (2 : Nat) ^ 63 + 1 < 2 ^ 64) ∧
    roundP2 (2 ^ 63 + 1) = 0 ∧
    ∀ k, roundP2 (2 ^ 63 + 1) ≠ 2 ^ k := by
  have h := roundP2_wrap (2 ^ 63 + 1) (Or.inr ⟨by norm_num, by norm_num⟩)
  exact ⟨⟨by norm_num, by norm_num⟩, h⟩

/-- The invariant holds at the consistent initial state of the race. -/
lemma raceInv_init (o1 o2 n1 n2 : Val) :
    RaceInv o1 o2 n1 n2 ⟨o1, o2, PC.install, PC.install⟩ :=
  ⟨rfl, Or.inl ⟨rfl, rfl, rfl⟩⟩

/-- The invariant is preserved by every interleaved atomic step, given
that the expected data value and the new values are not descriptor
pointers of either thread and that neither new value equals `o2`. -/
lemma raceInv_step {o1 o2 n1 n2 : Val}
    (h1 : o2 ≠ Val.desc 1) (h2 : o2 ≠ Val.desc 2)
    (h3 : n1 ≠ o2) (h4 : n2 ≠ o2) {s s' : Sys}
    (hinv : RaceInv o1 o2 n1 n2 s) (hstep : sysStep o1 o2 n1 n2 s s') :
    RaceInv o1 o2 n1 n2 s' := by
  cases hstep with
  | left hts =>
    cases hts <;> (simp_all [RaceInv]; try tauto)
  | right hts =>
    cases hts <;> (simp_all [RaceInv]; try tauto)

/-- Every state reachable from the consistent initial state satisfies the
race invariant. -/
lemma raceInv_reach {o1 o2 n1 n2 : Val}
    (h1 : o2 ≠ Val.desc 1) (h2 : o2 ≠ Val.desc 2)
    (h3 : n1 ≠ o2) (h4 : n2 ≠ o2) {s : Sys}
    (hr : Relation.ReflTransGen (sysStep o1 o2 n1 n2)
      ⟨o1, o2, PC.install, PC.install⟩ s) :
    RaceInv o1 o2 n1 n2 s := by
  induction hr with
  | refl => exact raceInv_init o1 o2 n1 n2
  | tail hab hbc ih => exact raceInv_step h1 h2 h3 h4 ih hbc

/-- Claim C3, counterexample: the claim fails when a racing thread brings
a new value equal to `o2`.  With `o1 = ptr 0`, `o2 = ptr 1`, `n1 = ptr 1`
(equal to `o2`) and `n2 = ptr 3`, from the consistent initial state the
interleaving in which thread 1 installs, reads the control word and
commits (writing `o2` back), after which thread 2 installs, reads and
commits too, is a complete execution reaching a state where both
invocations are Committed — not exactly one. -/
theorem rdcss_race_cex :
    Relation.ReflTransGen
      (sysStep (Val.ptr 0) (Val.ptr 1) (Val.ptr 1) (Val.ptr 3))
      (Sys.mk (Val.ptr 0) (Val.ptr 1) PC.install PC.install)
      (Sys.mk (Val.ptr 0) (Val.ptr 3) PC.committed PC.committed) ∧
    PC.terminal
      (Sys.mk (Val.ptr 0) (Val.ptr 3) PC.committed PC.committed).p1 ∧
    PC.terminal
      (Sys.mk (Val.ptr 0) (Val.ptr 3) PC.committed PC.committed).p2 ∧
    (Sys.mk (Val.ptr 0) (Val.ptr 3) PC.committed PC.committed).p1 =
      PC.committed ∧
    (Sys.mk (Val.ptr 0) (Val.ptr 3) PC.committed PC.committed).p2 =
      PC.committed := by
  have st1 : sysStep (Val.ptr 0) (Val.ptr 1) (Val.ptr 1) (Val.ptr 3)
      ⟨Val.ptr 0, Val.ptr 1, PC.install, PC.install⟩
      ⟨Val.ptr 0, Val.desc 1, PC.readCtl, PC.install⟩ :=
    sysStep.left (threadStep.installOk rfl)
  have st2 : sysStep (Val.ptr 0) (Val.ptr 1) (Val.ptr 1) (Val.ptr 3)
      ⟨Val.ptr 0, Val.desc 1, PC.readCtl, PC.install⟩
      ⟨Val.ptr 0, Val.desc 1, PC.commit, PC.install⟩ :=
    sysStep.left (threadStep.readOk rfl)
  have st3 : sysStep (Val.ptr 0) (Val.ptr 1) (Val.ptr 1) (Val.ptr 3)
      ⟨Val.ptr 0, Val.desc 1, PC.commit, PC.install⟩
      ⟨Val.ptr 0, Val.ptr 1, PC.committed, PC.install⟩ :=
    sysStep.left (threadStep.commitOk rfl)
  have st4 : sysStep (Val.ptr 0) (Val.ptr 1) (Val.ptr 1) (Val.ptr 3)
      ⟨Val.ptr 0, Val.ptr 1, PC.committed, PC.install⟩
      ⟨Val.ptr 0, Val.desc 2, PC.committed, PC.readCtl⟩ :=
    sysStep.right (threadStep.installOk rfl)
  have st5 : sysStep (Val.ptr 0) (Val.ptr 1) (Val.ptr 1) (Val.ptr 3)
      ⟨Val.ptr 0, Val.desc 2, PC.committed, PC.readCtl⟩
      ⟨Val.ptr 0, Val.desc 2, PC.committed, PC.commit⟩ :=
    sysStep.right (threadStep.readOk rfl)
  have st6 : sysStep (Val.ptr 0) (Val.ptr 1) (Val.ptr 1) (Val.ptr 3)
      ⟨Val.ptr 0, Val.desc 2, PC.committed, PC.commit⟩
      ⟨Val.ptr 0, Val.ptr 3, PC.committed, PC.committed⟩ :=
    sysStep.right (threadStep.commitOk rfl)
  refine ⟨?_, Or.inr (Or.inl rfl), Or.inr (Or.inl rfl), rfl, rfl⟩
  exact Relation.ReflTransGen.tail (Relation.ReflTransGen.tail
    (Relation.ReflTransGen.tail (Relation.ReflTransGen.tail
      (Relation.ReflTransGen.tail (Relation.ReflTransGen.tail
        Relation.ReflTransGen.refl st1) st2) st3) st4) st5) st6

/-- Claim C3 (amended): when two threads race `RDCSS` on the same control/data
addresses with consistent expected values (the initial state holds `o1`
and `o2`, each thread brings a fresh tagged descriptor and a new value
that is a data pointer different from `o2`), every execution in which both
invocations have returned has exactly one of them Committed, and the data
word holds exactly that winner's new value. -/
theorem rdcss_race (o1 o2 n1 n2 : Val)
    (h1 : o2 ≠ Val.desc 1) (h2 : o2 ≠ Val.desc 2)
    (h3 : n1 ≠ o2) (h4 : n2 ≠ o2) (s : Sys)
    (hr : Relation.ReflTransGen (sysStep o1 o2 n1 n2)
      ⟨o1, o2, PC.install, PC.install⟩ s)
    (ht1 : PC.terminal s.p1) (ht2 : PC.terminal s.p2) :
    (s.p1 = PC.committed ∧ s.p2 ≠ PC.committed ∧ s.v2 = n1) ∨
    (s.p2 = PC.committed ∧ s.p1 ≠ PC.committed ∧ s.v2 = n2) := by
  obtain ⟨hv1, H⟩ := raceInv_reach h1 h2 h3 h4 hr
  simp only [PC.terminal] at ht1 ht2
  rcases H with ⟨hA1, hA2, hA3⟩ | ⟨hB1, hB2, hB3⟩ |
    ⟨hB1, hB2, hB3⟩ | ⟨hC1, hC2, hC3⟩ | ⟨hC1, hC2, hC3⟩
  · rw [hA1] at ht1
    simp at ht1
  · rcases hB1 with hB1 | hB1 <;> (rw [hB1] at ht1; simp at ht1)
  · rcases hB1 with hB1 | hB1 <;> (rw [hB1] at ht2; simp at ht2)
  · rcases hC3 with hp2 | hp2
    · rw [hp2] at ht2
      simp at ht2
    · exact Or.inl ⟨hC1, by rw [hp2]; simp, hC2⟩
  · rcases hC3 with hp1 | hp1
    · rw [hp1] at ht1
      simp at ht1
    · exact Or.inr ⟨hC1, by rw [hp1]; simp, hC2⟩

/-- Witness for claim C3: a complete concrete execution in which thread 1
installs its descriptor, thread 2 aborts on the failed install, and
thread 1 commits; exactly thread 1 is Committed and the data word holds
its new value. -/
theorem rdcss_race_witness :
    (Val.ptr 1 ≠ Val.desc 1 ∧ Val.ptr 1 ≠ Val.desc 2 ∧
      Val.ptr 2 ≠ Val.ptr 1 ∧ Val.ptr 3 ≠ Val.ptr 1) ∧
    (((Sys.mk (Val.ptr 0) (Val.ptr 2) PC.committed PC.aborted).p1 =
        PC.committed ∧
      (Sys.mk (Val.ptr 0) (Val.ptr 2) PC.committed PC.aborted).p2 ≠
        PC.committed ∧
      (Sys.mk (Val.ptr 0) (Val.ptr 2) PC.committed PC.aborted).v2 =
        Val.ptr 2) ∨
     ((Sys.mk (Val.ptr 0) (Val.ptr 2) PC.committed PC.aborted).p2 =
        PC.committed ∧
      (Sys.mk (Val.ptr 0) (Val.ptr 2) PC.committed PC.aborted).p1 ≠
        PC.committed ∧
      (Sys.mk (Val.ptr 0) (Val.ptr 2) PC.committed PC.aborted).v2 =
        Val.ptr 3)) := by
  have st1 : sysStep (Val.ptr 0) (Val.ptr 1) (Val.ptr 2) (Val.ptr 3)
      ⟨Val.ptr 0, Val.ptr 1, PC.install, PC.install⟩
      ⟨Val.ptr 0, Val.desc 1, PC.readCtl, PC.install⟩ :=
    sysStep.left (threadStep.installOk rfl)
  have st2 : sysStep (Val.ptr 0) (Val.ptr 1) (Val.ptr 2) (Val.ptr 3)
      ⟨Val.ptr 0, Val.desc 1, PC.readCtl, PC.install⟩
      ⟨Val.ptr 0, Val.desc 1, PC.readCtl, PC.aborted⟩ :=
    sysStep.right (threadStep.installFail (by decide))
  have st3 : sysStep (Val.ptr 0) (Val.ptr 1) (Val.ptr 2) (Val.ptr 3)
      ⟨Val.ptr 0, Val.desc 1, PC.readCtl, PC.aborted⟩
      ⟨Val.ptr 0, Val.desc 1, PC.commit, PC.aborted⟩ :=
    sysStep.left (threadStep.readOk rfl)
  have st4 : sysStep (Val.ptr 0) (Val.ptr 1) (Val.ptr 2) (Val.ptr 3)
      ⟨Val.ptr 0, Val.desc 1, PC.commit, PC.aborted⟩
      ⟨Val.ptr 0, Val.ptr 2, PC.committed, PC.aborted⟩ :=
    sysStep.left (threadStep.commitOk rfl)
  have chain : Relation.ReflTransGen
      (sysStep (Val.ptr 0) (Val.ptr 1) (Val.ptr 2) (Val.ptr 3))
      ⟨Val.ptr 0, Val.ptr 1, PC.install, PC.install⟩
      ⟨Val.ptr 0, Val.ptr 2, PC.committed, PC.aborted⟩ :=
    Relation.ReflTransGen.tail (Relation.ReflTransGen.tail
      (Relation.ReflTransGen.tail (Relation.ReflTransGen.tail
        Relation.ReflTransGen.refl st1) st2) st3) st4
  refine ⟨⟨by decide, by decide, by decide, by decide⟩, ?_⟩
  exact rdcss_race (Val.ptr 0) (Val.ptr 1) (Val.ptr 2) (Val.ptr 3)
    (by decide) (by decide) (by decide) (by decide)
    ⟨Val.ptr 0, Val.ptr 2, PC.committed, PC.aborted⟩
    chain (Or.inr (Or.inl rfl)) (Or.inl rfl)
